import Mathlib

/-!
# A verification development for `seek.py`

`seek.py` implements an interest-based local recommendation system: a registry
of users (a Python dict from identifier to record), an inverted interest index
(a `defaultdict(set)` from lower-cased interest tag to the set of user
identifiers), a Haversine geodesic distance, a Jaccard interest similarity,
and a recommendation pipeline that collects candidates from the index,
filters them by distance and similarity thresholds, builds result records
with values rounded to two decimals, sorts by (similarity descending,
distance ascending) and truncates to a limit.

Modelling choices:

* Python floats are modelled as rationals (`ℚ`); `round(x, 2)` is modelled as
  exact round-half-to-even at two decimal places (`round2`).
* Python sets are modelled as `Finset`; where the code iterates over a set
  (an operation with unspecified order in Python) the embedding iterates in
  the order given by `Finset.sort`, one of the orders the source permits.
* The registry dict and the index `defaultdict` are modelled as
  insertion-ordered association lists with Python's mutation semantics;
  in particular reading a missing key of the `defaultdict` *inserts* an
  empty entry (`indexAccess`), as in Python.
* The trigonometric Haversine distance is not computable over `ℚ`; the
  recommendation pipeline is therefore parameterised by an arbitrary distance
  function `dist : ℚ → ℚ → ℚ → ℚ → ℚ` standing for
  `calculate_distance`, and the mathematical contract of the Haversine
  formula itself is stated separately over the reals
  (`calculate_distance`, noncomputable).
* Exceptions (`ValueError("User not found")` and a potential `KeyError` at
  `self.users[candidate_id]`) are modelled with `Except`; the state is
  returned alongside the result so that mutation (or its absence) is
  observable.
-/

set_option maxRecDepth 8000

/-- A user record (the `User` dataclass, seek.py lines 6-12): identifier,
display name, set of interest tags, coordinates. Floats are rationals here. -/
structure User where
  user_id : Nat
  name : String
  interests : Finset String
  latitude : ℚ
  longitude : ℚ
deriving DecidableEq

/-- The state of a `RecommendationSystem` (seek.py lines 14-18): the user
registry `self.users` (dict, insertion-ordered association list) and the
interest index `self.interest_index` (`defaultdict(set)`), plus the CLI's
id counter `self.current_id`. -/
structure SState where
  users : List (Nat × User)
  interest_index : List (String × Finset Nat)
  current_id : Nat
deriving DecidableEq

/-- The constructor of `RecommendationSystem` (seek.py lines 15-18). -/
def initState : SState :=
  { users := [], interest_index := [], current_id := 1 }

/-- Python dict lookup on the registry: `self.users[q]` / `q in self.users`.
An association list has at most one binding per key here, first match wins. -/
def dictGet : List (Nat × User) → Nat → Option User
  | [], _ => none
  | (k, v) :: rest, q => if k = q then some v else dictGet rest q

/-- Python dict assignment `self.users[k] = v`: replaces the binding in place
if the key is present, otherwise appends a new binding. -/
def dictInsert (k : Nat) (v : User) : List (Nat × User) → List (Nat × User)
  | [] => [(k, v)]
  | (k', v') :: rest =>
    if k' = k then (k, v) :: rest else (k', v') :: dictInsert k v rest

/-- Lookup of an entry of the interest index (no defaultdict behaviour). -/
def idxGet : List (String × Finset Nat) → String → Option (Finset Nat)
  | [], _ => none
  | (k, s) :: rest, q => if k = q then some s else idxGet rest q

/-- Contents of an index entry, with the `defaultdict(set)` default. -/
def indexGet (idx : List (String × Finset Nat)) (k : String) : Finset Nat :=
  (idxGet idx k).getD ∅

/-- The update `self.interest_index[k].add(uid)` on the `defaultdict(set)`: adds `uid`
to the entry of `k`, creating the entry if absent (seek.py line 24). -/
def indexAdd (k : String) (uid : Nat) :
    List (String × Finset Nat) → List (String × Finset Nat)
  | [] => [(k, {uid})]
  | (k', s) :: rest =>
    if k' = k then (k, insert uid s) :: rest else (k', s) :: indexAdd k uid rest

/-- Reading `self.interest_index[k]` on the `defaultdict` (seek.py line 57):
returns the entry together with the possibly extended dict — reading a
missing key inserts an empty set for it. -/
def indexAccess (idx : List (String × Finset Nat)) (k : String) :
    Finset Nat × List (String × Finset Nat) :=
  match idxGet idx k with
  | some s => (s, idx)
  | none => (∅, idx ++ [(k, ∅)])

/-- Iteration order used by the embedding for a Python set of strings. -/
def strSetList (s : Finset String) : List String :=
  s.sort (· ≤ ·)

/-- Iteration order used by the embedding for a Python set of integers. -/
def natSetList (s : Finset Nat) : List Nat :=
  s.sort (· ≤ ·)

/-- The method `add_user` (seek.py lines 20-24): store the record under its own id and
add the id to the index entry of each lower-cased interest tag. -/
def add_user (s : SState) (u : User) : SState :=
  { s with
    users := dictInsert u.user_id u s.users
    interest_index :=
      (strSetList u.interests).foldl
        (fun idx t => indexAdd t.toLower u.user_id idx) s.interest_index }

/-- A sequence of `add_user` calls starting from a given state. -/
def addUsers (s : SState) (us : List User) : SState :=
  us.foldl add_user s

/-- The method `calculate_interest_similarity` (seek.py lines 41-45): Jaccard index of
the two users' interest sets, `0` when the union is empty. -/
def calculate_interest_similarity (user1 user2 : User) : ℚ :=
  let intersection : Nat := (user1.interests ∩ user2.interests).card
  let union : Nat := (user1.interests ∪ user2.interests).card
  if 0 < union then (intersection : ℚ) / (union : ℚ) else 0

/-- Round-half-to-even of a rational to an integer (the idealised semantics
of Python's `round` on the exact value). -/
def rndHE (q : ℚ) : ℤ :=
  if q - ⌊q⌋ = 1 / 2 then (if ⌊q⌋ % 2 = 0 then ⌊q⌋ else ⌊q⌋ + 1) else ⌊q + 1 / 2⌋

/-- Python's `round(x, 2)`: round half to even at two decimal places. -/
def round2 (q : ℚ) : ℚ :=
  (rndHE (q * 100) : ℚ) / 100

example : round2 (1 / 3) = 33 / 100 := by with_unfolding_all decide
example : round2 (9995 / 1000) = 10 := by with_unfolding_all decide
example : round2 (9985 / 1000) = 998 / 100 := by with_unfolding_all decide

/-- A result record of `get_recommendations` (the dict built at seek.py
lines 78-84): candidate id and name, distance and similarity rounded to two
decimals, and the list of common interests. -/
structure Rec where
  user_id : Nat
  name : String
  distance : ℚ
  similarity : ℚ
  common_interests : List String
deriving DecidableEq

/-- The comparison of Python's sort key `(-similarity, distance)` on result
records (seek.py line 86): earlier-or-equal in the sorted order. -/
def recRel (a b : Rec) : Prop :=
  b.similarity < a.similarity ∨ (a.similarity = b.similarity ∧ a.distance ≤ b.distance)

instance : DecidableRel recRel := fun a b => by
  unfold recRel; infer_instance

instance : IsTotal Rec recRel := by
  constructor
  intro a b
  rcases lt_trichotomy a.similarity b.similarity with h | h | h
  · exact Or.inr (Or.inl h)
  · rcases le_total a.distance b.distance with hd | hd
    · exact Or.inl (Or.inr ⟨h, hd⟩)
    · exact Or.inr (Or.inr ⟨h.symm, hd⟩)
  · exact Or.inl (Or.inl h)

instance : IsTrans Rec recRel := by
  constructor
  intro a b c hab hbc
  rcases hab with h1 | ⟨e1, d1⟩
  · rcases hbc with h2 | ⟨e2, _⟩
    · exact Or.inl (h2.trans h1)
    · exact Or.inl (e2 ▸ h1)
  · rcases hbc with h2 | ⟨e2, d2⟩
    · exact Or.inl (e1 ▸ h2)
    · exact Or.inr ⟨e1.trans e2, d1.trans d2⟩

/-- The sort of the result list by key (negated similarity, distance)
(seek.py line 86). Python sorts are stable, and a stable sort by a total
preorder has a unique output, realised here by insertion sort. -/
def sortRecs (l : List Rec) : List Rec :=
  l.insertionSort recRel

/-- The exceptions `get_recommendations` can raise: `ValueError("User not
found")` at seek.py line 51, and the `KeyError` that
`self.users[candidate_id]` at line 63 would raise for a candidate id
missing from the registry. -/
inductive Err where
  | userNotFound
  | keyError
deriving DecidableEq

/-- One step of the candidate-collection loop (seek.py lines 56-57): read
`self.interest_index[interest.lower()]` on the defaultdict and union the
entry into the accumulated candidate set. -/
def collectStep (acc : Finset Nat × List (String × Finset Nat)) (t : String) :
    Finset Nat × List (String × Finset Nat) :=
  let res := indexAccess acc.2 t.toLower
  (acc.1 ∪ res.1, res.2)

/-- The candidate-collection loop over the query user's interests
(seek.py lines 54-57), also returning the possibly extended index. -/
def collectCandidates (idx : List (String × Finset Nat)) (target : User) :
    Finset Nat × List (String × Finset Nat) :=
  (strSetList target.interests).foldl collectStep (∅, idx)

/-- The result record built for a surviving candidate (seek.py lines 78-84). -/
def mkRec (target c : User) (d sim : ℚ) : Rec :=
  { user_id := c.user_id
    name := c.name
    distance := round2 d
    similarity := round2 sim
    common_interests := strSetList (target.interests ∩ c.interests) }

/-- The filtering loop of `get_recommendations` (seek.py lines 62-84): for
each candidate id look up its record (`KeyError` if absent), skip it when
its distance exceeds `max_distance` or its similarity falls below
`min_similarity`, and build a result record otherwise. -/
def buildRecs (dist : ℚ → ℚ → ℚ → ℚ → ℚ) (users : List (Nat × User)) (target : User)
    (max_distance min_similarity : ℚ) : List Nat → Except Err (List Rec)
  | [] => .ok []
  | cid :: rest =>
    match dictGet users cid with
    | none => .error .keyError
    | some c =>
      let d := dist target.latitude target.longitude c.latitude c.longitude
      if max_distance < d then
        buildRecs dist users target max_distance min_similarity rest
      else
        let sim := calculate_interest_similarity target c
        if sim < min_similarity then
          buildRecs dist users target max_distance min_similarity rest
        else
          (mkRec target c d sim :: ·) <$>
            buildRecs dist users target max_distance min_similarity rest

/-- The method `get_recommendations` (seek.py lines 47-87), parameterised by the
distance function standing for `calculate_distance`. Returns the result
(or the exception raised) together with the state after the call, so that
mutation is observable; `limit` is a natural number, matching the boundary
validation `limit >= 1` of the caller (seek.py line 171). -/
def get_recommendations (dist : ℚ → ℚ → ℚ → ℚ → ℚ) (s : SState) (user_id : Nat)
    (max_distance min_similarity : ℚ) (limit : Nat) :
    Except Err (List Rec) × SState :=
  match dictGet s.users user_id with
  | none => (.error .userNotFound, s)
  | some target =>
    let col := collectCandidates s.interest_index target
    let candidates := col.1.erase user_id
    let s1 : SState := { s with interest_index := col.2 }
    match buildRecs dist s.users target max_distance min_similarity (natSetList candidates) with
    | .error e => (.error e, s1)
    | .ok recs => (.ok ((sortRecs recs).take limit), s1)

/-- Degrees to radians, `math.radians` (seek.py lines 30-31). -/
noncomputable def radians (x : ℝ) : ℝ :=
  x * Real.pi / 180

/-- The function `math.atan2`, the two-argument arctangent (seek.py line 37). -/
noncomputable def atan2 (y x : ℝ) : ℝ :=
  if 0 < x then Real.arctan (y / x)
  else if x < 0 then
    (if 0 ≤ y then Real.arctan (y / x) + Real.pi else Real.arctan (y / x) - Real.pi)
  else
    (if 0 < y then Real.pi / 2 else if y < 0 then -(Real.pi / 2) else 0)

/-- The method `calculate_distance` (seek.py lines 26-39): the Haversine great-circle
distance with Earth radius 6371 km, over the reals (the exact-arithmetic
idealisation of the float computation). -/
noncomputable def calculate_distance (lat1 lon1 lat2 lon2 : ℝ) : ℝ :=
  let R : ℝ := 6371
  let lat1r := radians lat1
  let lon1r := radians lon1
  let lat2r := radians lat2
  let lon2r := radians lon2
  let dlat := lat2r - lat1r
  let dlon := lon2r - lon1r
  let a := Real.sin (dlat / 2) ^ 2 + Real.cos lat1r * Real.cos lat2r * Real.sin (dlon / 2) ^ 2
  let c := 2 * atan2 (Real.sqrt a) (Real.sqrt (1 - a))
  R * c

/-! ## Basic lemmas about the registry and the index -/

theorem dictGet_dictInsert (k : Nat) (v : User) (l : List (Nat × User)) (q : Nat) :
    dictGet (dictInsert k v l) q = if k = q then some v else dictGet l q := by
  induction l with
  | nil => simp [dictGet, dictInsert]
  | cons p rest ih =>
    obtain ⟨k', v'⟩ := p
    by_cases hk : k' = k
    · subst hk
      by_cases hq : k' = q <;> simp [dictGet, dictInsert, hq]
    · by_cases hq : k' = q
      · subst hq
        have hk2 : ¬ k = k' := fun h => hk h.symm
        simp [dictGet, dictInsert, hk, hk2]
      · simp [dictGet, dictInsert, hk, hq, ih]

theorem dictGet_mem {l : List (Nat × User)} {q : Nat} {v : User}
    (h : dictGet l q = some v) : (q, v) ∈ l := by
  induction l with
  | nil => simp [dictGet] at h
  | cons p rest ih =>
    obtain ⟨k', v'⟩ := p
    by_cases hk : k' = q
    · subst hk
      simp [dictGet] at h
      simp [h]
    · simp [dictGet, hk] at h
      exact List.mem_cons_of_mem _ (ih h)

theorem indexGet_indexAdd (k : String) (uid : Nat) (idx : List (String × Finset Nat))
    (q : String) :
    indexGet (indexAdd k uid idx) q =
      if k = q then insert uid (indexGet idx q) else indexGet idx q := by
  induction idx with
  | nil =>
    by_cases hq : k = q <;> simp [indexGet, idxGet, indexAdd, hq]
  | cons p rest ih =>
    obtain ⟨k', s'⟩ := p
    by_cases hk : k' = k
    · subst hk
      by_cases hq : k' = q <;> simp [indexGet, idxGet, indexAdd, hq]
    · by_cases hq : k' = q
      · subst hq
        have : ¬ k = k' := fun h => hk h.symm
        simp [indexGet, idxGet, indexAdd, hk, this]
      · simp only [indexAdd, if_neg hk]
        simp only [indexGet, idxGet, if_neg hq] at ih ⊢
        exact ih

theorem indexAccess_fst (idx : List (String × Finset Nat)) (k : String) :
    (indexAccess idx k).1 = indexGet idx k := by
  unfold indexAccess indexGet
  cases h : idxGet idx k <;> simp [h]

theorem idxGet_append (l1 l2 : List (String × Finset Nat)) (q : String) :
    idxGet (l1 ++ l2) q = ((idxGet l1 q).or (idxGet l2 q)) := by
  induction l1 with
  | nil => simp [idxGet]
  | cons p rest ih =>
    obtain ⟨k', s'⟩ := p
    by_cases hq : k' = q <;> simp [idxGet, hq, ih]

theorem indexGet_indexAccess (idx : List (String × Finset Nat)) (k q : String) :
    indexGet (indexAccess idx k).2 q = indexGet idx q := by
  unfold indexAccess
  cases h : idxGet idx k with
  | some s => rfl
  | none =>
    by_cases hq : k = q
    · subst hq
      simp [indexGet, idxGet_append, h, idxGet]
    · simp [indexGet, idxGet_append, idxGet, hq]

theorem indexAccess_snd_of_isSome {idx : List (String × Finset Nat)} {k : String}
    (h : (idxGet idx k).isSome) : (indexAccess idx k).2 = idx := by
  unfold indexAccess
  cases hg : idxGet idx k with
  | some s => rfl
  | none => rw [hg] at h; simp at h

theorem idxGet_isSome_of_mem {idx : List (String × Finset Nat)} {k : String} {id : Nat}
    (h : id ∈ indexGet idx k) : (idxGet idx k).isSome := by
  unfold indexGet at h
  cases hg : idxGet idx k with
  | some s => rfl
  | none => rw [hg] at h; simp at h

/-! ## Rounding bounds -/

theorem rndHE_sub_le (q : ℚ) : (rndHE q : ℚ) ≤ q + 1 / 2 := by
  unfold rndHE
  by_cases hh : q - ⌊q⌋ = 1 / 2
  · have hfl : (⌊q⌋ : ℚ) = q - 1 / 2 := by linarith
    have hc : ((⌊q⌋ + 1 : ℤ) : ℚ) = (⌊q⌋ : ℚ) + 1 := by push_cast; ring
    by_cases he : ⌊q⌋ % 2 = 0 <;> simp [hh, he, hc] <;> linarith
  · simp only [if_neg hh]
    have h1 : (⌊q + 1 / 2⌋ : ℚ) ≤ q + 1 / 2 := Int.floor_le _
    linarith

theorem rndHE_sub_ge (q : ℚ) : q - 1 / 2 ≤ (rndHE q : ℚ) := by
  unfold rndHE
  by_cases hh : q - ⌊q⌋ = 1 / 2
  · have hfl : (⌊q⌋ : ℚ) = q - 1 / 2 := by linarith
    have hc : ((⌊q⌋ + 1 : ℤ) : ℚ) = (⌊q⌋ : ℚ) + 1 := by push_cast; ring
    by_cases he : ⌊q⌋ % 2 = 0 <;> simp [hh, he, hc] <;> linarith
  · simp only [if_neg hh]
    have h1 : q + 1 / 2 < (⌊q + 1 / 2⌋ : ℚ) + 1 := Int.lt_floor_add_one _
    linarith

theorem round2_le (q : ℚ) : round2 q ≤ q + 1 / 200 := by
  unfold round2
  have := rndHE_sub_le (q * 100)
  rw [div_le_iff₀ (by norm_num : (0:ℚ) < 100)]
  linarith

theorem round2_ge (q : ℚ) : q - 1 / 200 ≤ round2 q := by
  unfold round2
  have := rndHE_sub_ge (q * 100)
  rw [le_div_iff₀ (by norm_num : (0:ℚ) < 100)]
  linarith

/-! ## The candidate-collection loop -/

theorem collect_foldl_snd (ts : List String) :
    ∀ (idx : List (String × Finset Nat)) (acc : Finset Nat) (q : String),
      indexGet (ts.foldl collectStep (acc, idx)).2 q = indexGet idx q := by
  induction ts with
  | nil => intro idx acc q; rfl
  | cons t ts ih =>
    intro idx acc q
    have hstep : collectStep (acc, idx) t =
        (acc ∪ (indexAccess idx t.toLower).1, (indexAccess idx t.toLower).2) := rfl
    rw [List.foldl_cons, hstep, ih]
    exact indexGet_indexAccess idx t.toLower q

theorem collect_foldl_mem (ts : List String) :
    ∀ (idx : List (String × Finset Nat)) (acc : Finset Nat) (cid : Nat),
      cid ∈ (ts.foldl collectStep (acc, idx)).1 ↔
        cid ∈ acc ∨ ∃ t ∈ ts, cid ∈ indexGet idx t.toLower := by
  induction ts with
  | nil => intro idx acc cid; simp
  | cons t ts ih =>
    intro idx acc cid
    have hstep : collectStep (acc, idx) t =
        (acc ∪ (indexAccess idx t.toLower).1, (indexAccess idx t.toLower).2) := rfl
    rw [List.foldl_cons, hstep, ih]
    constructor
    · rintro (h | ⟨u, hu, hm⟩)
      · rcases Finset.mem_union.mp h with h | h
        · exact Or.inl h
        · rw [indexAccess_fst] at h
          exact Or.inr ⟨t, List.mem_cons_self .., h⟩
      · rw [indexGet_indexAccess] at hm
        exact Or.inr ⟨u, List.mem_cons_of_mem _ hu, hm⟩
    · rintro (h | ⟨u, hu, hm⟩)
      · exact Or.inl (Finset.mem_union_left _ h)
      · rcases List.mem_cons.mp hu with rfl | hu'
        · refine Or.inl (Finset.mem_union_right _ ?_)
          rw [indexAccess_fst]
          exact hm
        · refine Or.inr ⟨u, hu', ?_⟩
          rw [indexGet_indexAccess]
          exact hm

theorem collect_foldl_snd_of_present (ts : List String) :
    ∀ (idx : List (String × Finset Nat)) (acc : Finset Nat),
      (∀ t ∈ ts, (idxGet idx t.toLower).isSome) →
      (ts.foldl collectStep (acc, idx)).2 = idx := by
  induction ts with
  | nil => intro idx acc _; rfl
  | cons t ts ih =>
    intro idx acc h
    have hsnd : (indexAccess idx t.toLower).2 = idx :=
      indexAccess_snd_of_isSome (h t (List.mem_cons_self ..))
    have hstep : collectStep (acc, idx) t =
        (acc ∪ (indexAccess idx t.toLower).1, idx) := by
      rw [show collectStep (acc, idx) t =
        (acc ∪ (indexAccess idx t.toLower).1, (indexAccess idx t.toLower).2) from rfl, hsnd]
    rw [List.foldl_cons, hstep]
    exact ih idx _ (fun u hu => h u (List.mem_cons_of_mem _ hu))

theorem collectCandidates_mem (idx : List (String × Finset Nat)) (target : User) (cid : Nat) :
    cid ∈ (collectCandidates idx target).1 ↔
      ∃ t ∈ target.interests, cid ∈ indexGet idx t.toLower := by
  unfold collectCandidates
  rw [collect_foldl_mem]
  simp [strSetList]

theorem collectCandidates_snd (idx : List (String × Finset Nat)) (target : User) (q : String) :
    indexGet (collectCandidates idx target).2 q = indexGet idx q :=
  collect_foldl_snd _ _ _ _

theorem collectCandidates_snd_of_present (idx : List (String × Finset Nat)) (target : User)
    (h : ∀ t ∈ target.interests, (idxGet idx t.toLower).isSome) :
    (collectCandidates idx target).2 = idx := by
  unfold collectCandidates
  refine collect_foldl_snd_of_present _ _ _ (fun t ht => h t ?_)
  rw [strSetList, Finset.mem_sort] at ht
  exact ht

/-! ## The filtering loop -/

theorem buildRecs_mem {dist : ℚ → ℚ → ℚ → ℚ → ℚ} {users : List (Nat × User)} {target : User}
    {maxd minsim : ℚ} :
    ∀ {cids : List Nat} {l : List Rec} {r : Rec},
      buildRecs dist users target maxd minsim cids = .ok l → r ∈ l →
      ∃ cid ∈ cids, ∃ c, dictGet users cid = some c ∧
        ¬ maxd < dist target.latitude target.longitude c.latitude c.longitude ∧
        ¬ calculate_interest_similarity target c < minsim ∧
        r = mkRec target c (dist target.latitude target.longitude c.latitude c.longitude)
              (calculate_interest_similarity target c) := by
  intro cids
  induction cids with
  | nil =>
    intro l r h hr
    simp only [buildRecs, Except.ok.injEq] at h
    subst h
    exact absurd hr (List.not_mem_nil r)
  | cons cid rest ih =>
    intro l r h hr
    simp only [buildRecs] at h
    cases hdg : dictGet users cid with
    | none => simp only [hdg] at h; exact Except.noConfusion h
    | some c =>
      simp only [hdg] at h
      by_cases hd : maxd < dist target.latitude target.longitude c.latitude c.longitude
      · rw [if_pos hd] at h
        obtain ⟨cid', hmem, hrest⟩ := ih h hr
        exact ⟨cid', List.mem_cons_of_mem _ hmem, hrest⟩
      · rw [if_neg hd] at h
        by_cases hs : calculate_interest_similarity target c < minsim
        · rw [if_pos hs] at h
          obtain ⟨cid', hmem, hrest⟩ := ih h hr
          exact ⟨cid', List.mem_cons_of_mem _ hmem, hrest⟩
        · rw [if_neg hs] at h
          cases hb : buildRecs dist users target maxd minsim rest with
          | error e => rw [hb] at h; exact Except.noConfusion h
          | ok l' =>
            rw [hb] at h
            have hl : mkRec target c
                (dist target.latitude target.longitude c.latitude c.longitude)
                (calculate_interest_similarity target c) :: l' = l := by
              simpa using h
            rw [← hl] at hr
            rcases List.mem_cons.mp hr with rfl | hr'
            · exact ⟨cid, List.mem_cons_self .., c, hdg, hd, hs, rfl⟩
            · obtain ⟨cid', hmem, hrest⟩ := ih hb hr'
              exact ⟨cid', List.mem_cons_of_mem _ hmem, hrest⟩

theorem buildRecs_isOk {dist : ℚ → ℚ → ℚ → ℚ → ℚ} {users : List (Nat × User)} {target : User}
    {maxd minsim : ℚ} :
    ∀ {cids : List Nat}, (∀ cid ∈ cids, (dictGet users cid).isSome) →
      ∃ l, buildRecs dist users target maxd minsim cids = .ok l := by
  intro cids
  induction cids with
  | nil => intro _; exact ⟨[], rfl⟩
  | cons cid rest ih =>
    intro h
    obtain ⟨l, hl⟩ := ih (fun c hc => h c (List.mem_cons_of_mem _ hc))
    have hc := h cid (List.mem_cons_self ..)
    cases hdg : dictGet users cid with
    | none => rw [hdg] at hc; exact absurd hc (by simp)
    | some c =>
      simp only [buildRecs, hdg]
      by_cases hd : maxd < dist target.latitude target.longitude c.latitude c.longitude
      · rw [if_pos hd]; exact ⟨l, hl⟩
      · rw [if_neg hd]
        by_cases hs : calculate_interest_similarity target c < minsim
        · rw [if_pos hs]; exact ⟨l, hl⟩
        · rw [if_neg hs]
          exact ⟨mkRec target c (dist target.latitude target.longitude c.latitude c.longitude)
              (calculate_interest_similarity target c) :: l, by rw [hl]; rfl⟩

theorem buildRecs_error_keyError {dist : ℚ → ℚ → ℚ → ℚ → ℚ} {users : List (Nat × User)}
    {target : User} {maxd minsim : ℚ} :
    ∀ {cids : List Nat} {e : Err},
      buildRecs dist users target maxd minsim cids = .error e → e = .keyError := by
  intro cids
  induction cids with
  | nil => intro e h; exact Except.noConfusion h
  | cons cid rest ih =>
    intro e h
    simp only [buildRecs] at h
    cases hdg : dictGet users cid with
    | none =>
      simp only [hdg, Except.error.injEq] at h
      exact h.symm
    | some c =>
      simp only [hdg] at h
      by_cases hd : maxd < dist target.latitude target.longitude c.latitude c.longitude
      · rw [if_pos hd] at h; exact ih h
      · rw [if_neg hd] at h
        by_cases hs : calculate_interest_similarity target c < minsim
        · rw [if_pos hs] at h; exact ih h
        · rw [if_neg hs] at h
          cases hb : buildRecs dist users target maxd minsim rest with
          | error e' =>
            rw [hb] at h
            have : e' = e := by simpa using h
            exact this ▸ ih hb
          | ok l' => rw [hb] at h; exact Except.noConfusion h

/-! ## Effect of `add_user` on registry and index -/

theorem mem_dictInsert {p : Nat × User} {k : Nat} {v : User} :
    ∀ {l : List (Nat × User)}, p ∈ dictInsert k v l → p = (k, v) ∨ p ∈ l := by
  intro l
  induction l with
  | nil => intro h; simpa [dictInsert] using h
  | cons q rest ih =>
    obtain ⟨k', v'⟩ := q
    intro h
    by_cases hk : k' = k
    · subst hk
      rw [dictInsert, if_pos rfl] at h
      rcases List.mem_cons.mp h with rfl | h'
      · exact Or.inl rfl
      · exact Or.inr (List.mem_cons_of_mem _ h')
    · rw [dictInsert, if_neg hk] at h
      rcases List.mem_cons.mp h with rfl | h'
      · exact Or.inr (List.mem_cons_self ..)
      · rcases ih h' with h'' | h''
        · exact Or.inl h''
        · exact Or.inr (List.mem_cons_of_mem _ h'')

theorem foldIndexAdd_mem (uid : Nat) (ts : List String) :
    ∀ (idx : List (String × Finset Nat)) (k : String) (id : Nat),
      id ∈ indexGet (ts.foldl (fun idx t => indexAdd t.toLower uid idx) idx) k ↔
        id ∈ indexGet idx k ∨ (id = uid ∧ ∃ t ∈ ts, t.toLower = k) := by
  induction ts with
  | nil => simp
  | cons t ts ih =>
    intro idx k id
    rw [List.foldl_cons, ih, indexGet_indexAdd]
    by_cases hk : t.toLower = k
    · rw [if_pos hk]
      simp only [Finset.mem_insert]
      constructor
      · rintro ((rfl | h) | ⟨rfl, u, hu, huk⟩)
        · exact Or.inr ⟨rfl, t, List.mem_cons_self .., hk⟩
        · exact Or.inl h
        · exact Or.inr ⟨rfl, u, List.mem_cons_of_mem _ hu, huk⟩
      · rintro (h | ⟨rfl, u, hu, huk⟩)
        · exact Or.inl (Or.inr h)
        · exact Or.inl (Or.inl rfl)
    · rw [if_neg hk]
      constructor
      · rintro (h | ⟨rfl, u, hu, huk⟩)
        · exact Or.inl h
        · exact Or.inr ⟨rfl, u, List.mem_cons_of_mem _ hu, huk⟩
      · rintro (h | ⟨rfl, u, hu, huk⟩)
        · exact Or.inl h
        · rcases List.mem_cons.mp hu with rfl | hu'
          · exact absurd huk hk
          · exact Or.inr ⟨rfl, u, hu', huk⟩

theorem indexGet_addUser (s : SState) (u : User) (k : String) (id : Nat) :
    id ∈ indexGet (add_user s u).interest_index k ↔
      id ∈ indexGet s.interest_index k ∨
        (id = u.user_id ∧ ∃ t ∈ u.interests, t.toLower = k) := by
  show id ∈ indexGet ((strSetList u.interests).foldl
      (fun idx t => indexAdd t.toLower u.user_id idx) s.interest_index) k ↔ _
  rw [foldIndexAdd_mem]
  simp [strSetList]

/-! ## State invariants established by `add_user` -/

/-- Key consistency: each registry binding stores a record whose `user_id`
field equals its key (`add_user` keys records by their own id). -/
def KeysOk (s : SState) : Prop :=
  ∀ p ∈ s.users, p.2.user_id = p.1

/-- Every registered user's lower-cased interest tags are keys of the index,
and each such entry contains the user's identifier. -/
def RegIndexed (s : SState) : Prop :=
  ∀ p ∈ s.users, ∀ t ∈ p.2.interests,
    p.2.user_id ∈ indexGet s.interest_index t.toLower

/-- Index soundness: every identifier in an index entry belongs to a
registered user one of whose interest tags lower-cases to the entry's key. -/
def IndexSound (s : SState) : Prop :=
  ∀ k id, id ∈ indexGet s.interest_index k →
    ∃ u, dictGet s.users id = some u ∧ ∃ t ∈ u.interests, t.toLower = k

theorem keysOk_addUser {s : SState} (h : KeysOk s) (u : User) : KeysOk (add_user s u) := by
  intro p hp
  rcases mem_dictInsert hp with rfl | hp'
  · rfl
  · exact h p hp'

theorem regIndexed_addUser {s : SState} (h : RegIndexed s) (u : User) :
    RegIndexed (add_user s u) := by
  intro p hp t ht
  rcases mem_dictInsert hp with rfl | hp'
  · exact (indexGet_addUser s u _ _).mpr (Or.inr ⟨rfl, t, ht, rfl⟩)
  · exact (indexGet_addUser s u _ _).mpr (Or.inl (h p hp' t ht))

theorem indexSound_addUser {s : SState} {u : User}
    (hfresh : dictGet s.users u.user_id = none) (h : IndexSound s) :
    IndexSound (add_user s u) := by
  intro k id hid
  rcases (indexGet_addUser s u k id).mp hid with hold | ⟨rfl, t, ht, hk⟩
  · obtain ⟨w, hw, t, ht, hk⟩ := h k id hold
    refine ⟨w, ?_, t, ht, hk⟩
    show dictGet (dictInsert u.user_id u s.users) id = some w
    rw [dictGet_dictInsert]
    have hne : u.user_id ≠ id := by
      rintro rfl
      rw [hfresh] at hw
      exact Option.noConfusion hw
    rw [if_neg hne]
    exact hw
  · refine ⟨u, ?_, t, ht, hk⟩
    show dictGet (dictInsert u.user_id u s.users) u.user_id = some u
    rw [dictGet_dictInsert, if_pos rfl]

theorem keysOk_addUsers_aux : ∀ (us : List User) (s : SState),
    KeysOk s → KeysOk (addUsers s us) := by
  intro us
  induction us with
  | nil => intro s h; exact h
  | cons u us ih => intro s h; exact ih (add_user s u) (keysOk_addUser h u)

theorem keysOk_addUsers (us : List User) : KeysOk (addUsers initState us) :=
  keysOk_addUsers_aux us initState (by intro p hp; exact absurd hp (List.not_mem_nil p))

theorem regIndexed_addUsers_aux : ∀ (us : List User) (s : SState),
    RegIndexed s → RegIndexed (addUsers s us) := by
  intro us
  induction us with
  | nil => intro s h; exact h
  | cons u us ih => intro s h; exact ih (add_user s u) (regIndexed_addUser h u)

theorem regIndexed_addUsers (us : List User) : RegIndexed (addUsers initState us) :=
  regIndexed_addUsers_aux us initState (by intro p hp; exact absurd hp (List.not_mem_nil p))

theorem indexSound_addUsers_aux : ∀ (us : List User) (s : SState),
    IndexSound s → (∀ u ∈ us, dictGet s.users u.user_id = none) →
    us.Pairwise (fun a b => a.user_id ≠ b.user_id) → IndexSound (addUsers s us) := by
  intro us
  induction us with
  | nil => intro s h _ _; exact h
  | cons u us ih =>
    intro s h hfresh hpw
    rw [List.pairwise_cons] at hpw
    refine ih (add_user s u) (indexSound_addUser (hfresh u (List.mem_cons_self ..)) h) ?_ hpw.2
    intro v hv
    show dictGet (dictInsert u.user_id u s.users) v.user_id = none
    rw [dictGet_dictInsert, if_neg (hpw.1 v hv)]
    exact hfresh v (List.mem_cons_of_mem _ hv)

theorem indexSound_addUsers (us : List User)
    (h : us.Pairwise (fun a b => a.user_id ≠ b.user_id)) :
    IndexSound (addUsers initState us) :=
  indexSound_addUsers_aux us initState
    (by intro k id hid; exact absurd hid (by simp [indexGet, idxGet]))
    (fun _ _ => rfl) h

theorem dictGet_addUsers_mem : ∀ (us : List User) (s : SState) (id : Nat) (u : User),
    dictGet (addUsers s us).users id = some u → u ∈ us ∨ dictGet s.users id = some u := by
  intro us
  induction us with
  | nil => intro s id u h; exact Or.inr h
  | cons v us ih =>
    intro s id u h
    rcases ih (add_user s v) id u h with h' | h'
    · exact Or.inl (List.mem_cons_of_mem _ h')
    · rw [show (add_user s v).users = dictInsert v.user_id v s.users from rfl,
        dictGet_dictInsert] at h'
      by_cases hv : v.user_id = id
      · rw [if_pos hv] at h'
        exact Or.inl (List.mem_cons.mpr (Or.inl (Option.some.inj h').symm))
      · rw [if_neg hv] at h'
        exact Or.inr h'

/-! ## Characterising `get_recommendations` -/

theorem getRecs_eq_of_found {dist : ℚ → ℚ → ℚ → ℚ → ℚ} {s : SState} {uid : Nat}
    {target : User} (maxd minsim : ℚ) (limit : Nat)
    (h : dictGet s.users uid = some target) :
    get_recommendations dist s uid maxd minsim limit =
      (match buildRecs dist s.users target maxd minsim
          (natSetList ((collectCandidates s.interest_index target).1.erase uid)) with
       | .error e =>
           (.error e, { s with interest_index := (collectCandidates s.interest_index target).2 })
       | .ok recs =>
           (.ok ((sortRecs recs).take limit),
             { s with interest_index := (collectCandidates s.interest_index target).2 })) := by
  unfold get_recommendations
  rw [h]

theorem getRecs_eq_of_missing {dist : ℚ → ℚ → ℚ → ℚ → ℚ} {s : SState} {uid : Nat}
    (maxd minsim : ℚ) (limit : Nat) (h : dictGet s.users uid = none) :
    get_recommendations dist s uid maxd minsim limit = (.error .userNotFound, s) := by
  unfold get_recommendations
  rw [h]

theorem getRecs_ok_mem {dist : ℚ → ℚ → ℚ → ℚ → ℚ} {s : SState} {uid : Nat} {target : User}
    {maxd minsim : ℚ} {limit : Nat} {l : List Rec} {r : Rec}
    (hq : dictGet s.users uid = some target)
    (h : (get_recommendations dist s uid maxd minsim limit).1 = .ok l) (hr : r ∈ l) :
    ∃ cid, cid ≠ uid ∧
      (∃ t ∈ target.interests, cid ∈ indexGet s.interest_index t.toLower) ∧
      ∃ c, dictGet s.users cid = some c ∧
        ¬ maxd < dist target.latitude target.longitude c.latitude c.longitude ∧
        ¬ calculate_interest_similarity target c < minsim ∧
        r = mkRec target c (dist target.latitude target.longitude c.latitude c.longitude)
              (calculate_interest_similarity target c) := by
  rw [getRecs_eq_of_found maxd minsim limit hq] at h
  cases hb : buildRecs dist s.users target maxd minsim
      (natSetList ((collectCandidates s.interest_index target).1.erase uid)) with
  | error e => rw [hb] at h; simp at h
  | ok recs =>
    rw [hb] at h
    have hl : (sortRecs recs).take limit = l := by simpa using h
    rw [← hl] at hr
    have hr2 : r ∈ recs := by
      have hmem := List.mem_of_mem_take hr
      rwa [sortRecs, List.mem_insertionSort] at hmem
    obtain ⟨cid, hcid, c, hdg, hd, hs, hrec⟩ := buildRecs_mem hb hr2
    rw [natSetList, Finset.mem_sort] at hcid
    exact ⟨cid, Finset.ne_of_mem_erase hcid,
      (collectCandidates_mem _ _ _).mp (Finset.mem_of_mem_erase hcid), c, hdg, hd, hs, hrec⟩

/-! ## The claims -/

/-- C2: for every call of `get_recommendations` that returns a result list,
the list is sorted by similarity descending with ties broken by distance
ascending, and its length is at most `limit`. -/
theorem getRecs_sorted_truncated (dist : ℚ → ℚ → ℚ → ℚ → ℚ) (s : SState) (uid : Nat)
    (maxd minsim : ℚ) (limit : Nat) (l : List Rec)
    (h : (get_recommendations dist s uid maxd minsim limit).1 = .ok l) :
    l.length ≤ limit ∧
      l.Pairwise (fun a b => b.similarity < a.similarity ∨
        (a.similarity = b.similarity ∧ a.distance ≤ b.distance)) := by
  cases hq : dictGet s.users uid with
  | none =>
    rw [getRecs_eq_of_missing maxd minsim limit hq] at h
    exact Except.noConfusion h
  | some target =>
    rw [getRecs_eq_of_found maxd minsim limit hq] at h
    cases hb : buildRecs dist s.users target maxd minsim
        (natSetList ((collectCandidates s.interest_index target).1.erase uid)) with
    | error e => rw [hb] at h; simp at h
    | ok recs =>
      rw [hb] at h
      have hl : (sortRecs recs).take limit = l := by simpa using h
      subst hl
      constructor
      · exact List.length_take_le limit _
      · have hsorted : List.Sorted recRel (sortRecs recs) :=
          List.sorted_insertionSort recRel recs
        exact List.Pairwise.sublist (List.take_sublist limit _) hsorted

/-- C3: on any state reachable by a sequence of `add_user` calls from the
empty state, `get_recommendations` leaves the state — registry, interest
index and id counter — unchanged (it is read-only). -/
theorem getRecs_state_unchanged (us : List User) (dist : ℚ → ℚ → ℚ → ℚ → ℚ)
    (uid : Nat) (maxd minsim : ℚ) (limit : Nat) :
    (get_recommendations dist (addUsers initState us) uid maxd minsim limit).2 =
      addUsers initState us := by
  set s := addUsers initState us with hs
  cases hq : dictGet s.users uid with
  | none => rw [getRecs_eq_of_missing maxd minsim limit hq]
  | some target =>
    rw [getRecs_eq_of_found maxd minsim limit hq]
    have hreg : RegIndexed s := regIndexed_addUsers us
    have hpresent : ∀ t ∈ target.interests, (idxGet s.interest_index t.toLower).isSome := by
      intro t ht
      exact idxGet_isSome_of_mem (hreg (uid, target) (dictGet_mem hq) t ht)
    have hcol : (collectCandidates s.interest_index target).2 = s.interest_index :=
      collectCandidates_snd_of_present _ _ hpresent
    cases hb : buildRecs dist s.users target maxd minsim
        (natSetList ((collectCandidates s.interest_index target).1.erase uid)) with
    | error e => simp [hcol]
    | ok recs => simp [hcol]

/-- C5: `get_recommendations` signals user-not-found exactly when the query
identifier is absent from the registry, and in exactly that case it returns
no result list and leaves the whole state unchanged. -/
theorem getRecs_userNotFound_iff (dist : ℚ → ℚ → ℚ → ℚ → ℚ) (s : SState) (uid : Nat)
    (maxd minsim : ℚ) (limit : Nat) :
    ((get_recommendations dist s uid maxd minsim limit).1 = .error .userNotFound ↔
        dictGet s.users uid = none) ∧
      (get_recommendations dist s uid maxd minsim limit = (.error .userNotFound, s) ↔
        dictGet s.users uid = none) := by
  cases hq : dictGet s.users uid with
  | none =>
    rw [getRecs_eq_of_missing maxd minsim limit hq]
    simp
  | some target =>
    rw [getRecs_eq_of_found maxd minsim limit hq]
    cases hb : buildRecs dist s.users target maxd minsim
        (natSetList ((collectCandidates s.interest_index target).1.erase uid)) with
    | error e =>
      have he : e = .keyError := buildRecs_error_keyError hb
      subst he
      simp
    | ok recs => simp

/-- C6: the interest similarity is the Jaccard index |A ∩ B| / |A ∪ B| of
the two users' interest sets, is 0 when both sets are empty, lies in
[0, 1], and is symmetric. -/
theorem similarity_jaccard_range_symm (u1 u2 : User) :
    calculate_interest_similarity u1 u2 =
        ((u1.interests ∩ u2.interests).card : ℚ) / ((u1.interests ∪ u2.interests).card : ℚ) ∧
      calculate_interest_similarity { u1 with interests := ∅ } { u2 with interests := ∅ } = 0 ∧
      0 ≤ calculate_interest_similarity u1 u2 ∧
      calculate_interest_similarity u1 u2 ≤ 1 ∧
      calculate_interest_similarity u1 u2 = calculate_interest_similarity u2 u1 := by
  have hform : ∀ v1 v2 : User, calculate_interest_similarity v1 v2 =
      ((v1.interests ∩ v2.interests).card : ℚ) / ((v1.interests ∪ v2.interests).card : ℚ) := by
    intro v1 v2
    unfold calculate_interest_similarity
    by_cases h : 0 < (v1.interests ∪ v2.interests).card
    · rw [if_pos h]
    · rw [if_neg h]
      have h0 : (v1.interests ∪ v2.interests).card = 0 := Nat.eq_zero_of_not_pos h
      rw [h0]
      norm_num
  refine ⟨hform u1 u2, ?_, ?_, ?_, ?_⟩
  · unfold calculate_interest_similarity
    simp
  · rw [hform]
    positivity
  · rw [hform]
    rcases Nat.eq_zero_or_pos (u1.interests ∪ u2.interests).card with h | h
    · rw [h]
      norm_num
    · rw [div_le_one (by exact_mod_cast h)]
      exact_mod_cast Finset.card_le_card Finset.inter_subset_union
  · rw [hform, hform, Finset.inter_comm, Finset.union_comm]

theorem calculate_distance_def (lat1 lon1 lat2 lon2 : ℝ) :
    calculate_distance lat1 lon1 lat2 lon2 =
      6371 * (2 * atan2
        (Real.sqrt (Real.sin ((radians lat2 - radians lat1) / 2) ^ 2 +
          Real.cos (radians lat1) * Real.cos (radians lat2) *
            Real.sin ((radians lon2 - radians lon1) / 2) ^ 2))
        (Real.sqrt (1 - (Real.sin ((radians lat2 - radians lat1) / 2) ^ 2 +
          Real.cos (radians lat1) * Real.cos (radians lat2) *
            Real.sin ((radians lon2 - radians lon1) / 2) ^ 2)))) := rfl

/-- C7: the Haversine distance is symmetric in its two coordinate pairs,
and the distance from a point to itself is exactly 0 (hence certainly
within the 1e-6 km tolerance). -/
theorem distance_symm_self_zero (lat1 lon1 lat2 lon2 : ℝ) :
    calculate_distance lat1 lon1 lat2 lon2 = calculate_distance lat2 lon2 lat1 lon1 ∧
      calculate_distance lat1 lon1 lat1 lon1 = 0 := by
  constructor
  · rw [calculate_distance_def, calculate_distance_def]
    have ha : Real.sin ((radians lat2 - radians lat1) / 2) ^ 2 +
        Real.cos (radians lat1) * Real.cos (radians lat2) *
          Real.sin ((radians lon2 - radians lon1) / 2) ^ 2 =
        Real.sin ((radians lat1 - radians lat2) / 2) ^ 2 +
        Real.cos (radians lat2) * Real.cos (radians lat1) *
          Real.sin ((radians lon1 - radians lon2) / 2) ^ 2 := by
      rw [show (radians lat2 - radians lat1) / 2 = -((radians lat1 - radians lat2) / 2) by ring,
        show (radians lon2 - radians lon1) / 2 = -((radians lon1 - radians lon2) / 2) by ring,
        Real.sin_neg, Real.sin_neg]
      ring
    rw [ha]
  · have hatan : atan2 0 1 = 0 := by
      unfold atan2
      rw [if_pos (by norm_num : (0:ℝ) < 1)]
      norm_num
    rw [calculate_distance_def]
    simp only [sub_self, zero_div, Real.sin_zero]
    norm_num [hatan]

/-- C1 (amended): every returned record names a candidate other than the
query user; the candidate's pre-rounding distance and similarity satisfy
the thresholds exactly (distance at most `max_distance`, similarity at
least `min_similarity`), and the record's distance and similarity fields
are the two-decimal roundings of those values, hence within half a
rounding unit (1/200 = 0.005) of the thresholds: the record's distance is
at most `max_distance + 0.005` and its similarity at least
`min_similarity - 0.005`. -/
theorem getRecs_records_filtered (us : List User) (dist : ℚ → ℚ → ℚ → ℚ → ℚ)
    (uid : Nat) (maxd minsim : ℚ) (limit : Nat) (l : List Rec) (r : Rec)
    (h : (get_recommendations dist (addUsers initState us) uid maxd minsim limit).1 = .ok l)
    (hr : r ∈ l) :
    r.user_id ≠ uid ∧ r.distance ≤ maxd + 1 / 200 ∧ minsim - 1 / 200 ≤ r.similarity ∧
      ∃ target c, dictGet (addUsers initState us).users uid = some target ∧
        dictGet (addUsers initState us).users r.user_id = some c ∧
        dist target.latitude target.longitude c.latitude c.longitude ≤ maxd ∧
        minsim ≤ calculate_interest_similarity target c ∧
        r.distance = round2 (dist target.latitude target.longitude c.latitude c.longitude) ∧
        r.similarity = round2 (calculate_interest_similarity target c) := by
  cases hq : dictGet (addUsers initState us).users uid with
  | none =>
    rw [getRecs_eq_of_missing maxd minsim limit hq] at h
    exact Except.noConfusion h
  | some target =>
    obtain ⟨cid, hne, _, c, hdg, hd, hs, hrec⟩ := getRecs_ok_mem hq h hr
    have hcu : c.user_id = cid := keysOk_addUsers us (cid, c) (dictGet_mem hdg)
    have hd2 := not_lt.mp hd
    have hs2 := not_lt.mp hs
    subst hrec
    refine ⟨?_, ?_, ?_, target, c, rfl, ?_, hd2, hs2, rfl, rfl⟩
    · show c.user_id ≠ uid
      rw [hcu]
      exact hne
    · show round2 (dist target.latitude target.longitude c.latitude c.longitude) ≤
        maxd + 1 / 200
      have h1 := round2_le (dist target.latitude target.longitude c.latitude c.longitude)
      linarith
    · show minsim - 1 / 200 ≤ round2 (calculate_interest_similarity target c)
      have h1 := round2_ge (calculate_interest_similarity target c)
      linarith
    · show dictGet (addUsers initState us).users c.user_id = some c
      rw [hcu]
      exact hdg

/-- C4: after `add_user` calls with pairwise distinct identifiers from the
empty state, every registered user's every interest tag has an index entry
under the lower-cased tag containing the user's identifier, and every
identifier in any index entry is registered. -/
theorem addUsers_index_registry_invariant (us : List User)
    (h : us.Pairwise (fun a b => a.user_id ≠ b.user_id)) :
    (∀ p ∈ (addUsers initState us).users, ∀ t ∈ p.2.interests,
        p.2.user_id ∈ indexGet (addUsers initState us).interest_index t.toLower) ∧
      (∀ k id, id ∈ indexGet (addUsers initState us).interest_index k →
        ∃ u, dictGet (addUsers initState us).users id = some u) := by
  refine ⟨regIndexed_addUsers us, ?_⟩
  intro k id hid
  obtain ⟨u, hu, -⟩ := indexSound_addUsers us h k id hid
  exact ⟨u, hu⟩

/-- C8: `add_user` with an identifier that is already registered raises no
error (it is a total operation): the registry binding is silently replaced
by the new record, all other bindings are untouched, and the interest index
only grows — in particular the entries created from the overwritten
record's interests remain in the index as stale entries. -/
theorem addUser_overwrites_and_leaves_stale_index (s : SState) (u old : User)
    (_h : dictGet s.users u.user_id = some old) :
    dictGet (add_user s u).users u.user_id = some u ∧
      (∀ q, u.user_id ≠ q → dictGet (add_user s u).users q = dictGet s.users q) ∧
      (∀ k id, id ∈ indexGet s.interest_index k →
        id ∈ indexGet (add_user s u).interest_index k) ∧
      (∀ t ∈ old.interests, old.user_id ∈ indexGet s.interest_index t.toLower →
        old.user_id ∈ indexGet (add_user s u).interest_index t.toLower) := by
  refine ⟨?_, ?_, ?_, ?_⟩
  · show dictGet (dictInsert u.user_id u s.users) u.user_id = some u
    rw [dictGet_dictInsert, if_pos rfl]
  · intro q hq
    show dictGet (dictInsert u.user_id u s.users) q = _
    rw [dictGet_dictInsert, if_neg hq]
  · intro k id hid
    exact (indexGet_addUser s u k id).mpr (Or.inl hid)
  · intro t _ hid
    exact (indexGet_addUser s u _ _).mpr (Or.inl hid)

/-- C9: in any state built by `add_user` calls with pairwise distinct
identifiers, every candidate identifier collected from the interest index
for a registered query user is itself registered, so the per-candidate
registry lookup in the filtering loop cannot fail and the query returns a
result list (the `KeyError` branch is unreachable). -/
theorem getRecs_candidates_registered (us : List User)
    (hpw : us.Pairwise (fun a b => a.user_id ≠ b.user_id))
    (dist : ℚ → ℚ → ℚ → ℚ → ℚ) (uid : Nat) (target : User) (maxd minsim : ℚ) (limit : Nat)
    (hq : dictGet (addUsers initState us).users uid = some target) :
    (∀ cid ∈ (collectCandidates (addUsers initState us).interest_index target).1,
        (dictGet (addUsers initState us).users cid).isSome) ∧
      ∃ l, (get_recommendations dist (addUsers initState us) uid maxd minsim limit).1 =
        .ok l := by
  set s := addUsers initState us with hs
  have hsound := indexSound_addUsers us hpw
  have hcand : ∀ cid ∈ (collectCandidates s.interest_index target).1,
      (dictGet s.users cid).isSome := by
    intro cid hcid
    obtain ⟨t, ht, hm⟩ := (collectCandidates_mem _ _ _).mp hcid
    obtain ⟨u, hu, -⟩ := hsound _ cid hm
    rw [hu]
    rfl
  refine ⟨hcand, ?_⟩
  have hall : ∀ cid ∈ natSetList ((collectCandidates s.interest_index target).1.erase uid),
      (dictGet s.users cid).isSome := by
    intro cid hcid
    rw [natSetList, Finset.mem_sort] at hcid
    exact hcand cid (Finset.mem_of_mem_erase hcid)
  obtain ⟨recs, hb⟩ := @buildRecs_isOk dist s.users target maxd minsim
    (natSetList ((collectCandidates s.interest_index target).1.erase uid)) hall
  refine ⟨(sortRecs recs).take limit, ?_⟩
  rw [getRecs_eq_of_found maxd minsim limit hq, hb]

/-- C10: when all users were added with pairwise distinct identifiers and
carry lower-cased interest tags, every returned record has a non-empty
`common_interests` list: each surviving candidate shares at least one
interest tag with the query user. -/
theorem getRecs_common_interests_nonempty (us : List User)
    (hpw : us.Pairwise (fun a b => a.user_id ≠ b.user_id))
    (hlow : ∀ u ∈ us, ∀ t ∈ u.interests, t.toLower = t)
    (dist : ℚ → ℚ → ℚ → ℚ → ℚ) (uid : Nat) (maxd minsim : ℚ) (limit : Nat)
    (l : List Rec) (r : Rec)
    (h : (get_recommendations dist (addUsers initState us) uid maxd minsim limit).1 = .ok l)
    (hr : r ∈ l) : r.common_interests ≠ [] := by
  set s := addUsers initState us with hs
  cases hq : dictGet s.users uid with
  | none =>
    rw [getRecs_eq_of_missing maxd minsim limit hq] at h
    exact Except.noConfusion h
  | some target =>
    obtain ⟨cid, hne, ⟨t, ht, hm⟩, c, hdg, -, -, hrec⟩ := getRecs_ok_mem hq h hr
    obtain ⟨u', hu', i, hi, hik⟩ := indexSound_addUsers us hpw _ cid hm
    have huc : c = u' := by
      rw [hdg] at hu'
      exact Option.some.inj hu'
    subst huc
    have hcin : c ∈ us := by
      rcases dictGet_addUsers_mem us initState cid c hdg with hin | habs
      · exact hin
      · exact Option.noConfusion habs
    have htin : target ∈ us := by
      rcases dictGet_addUsers_mem us initState uid target hq with hin | habs
      · exact hin
      · exact Option.noConfusion habs
    have hit : i = t := by
      have h1 : i.toLower = i := hlow c hcin i hi
      have h2 : t.toLower = t := hlow target htin t ht
      rw [← h1, ← h2]
      exact hik
    subst hrec
    show strSetList (target.interests ∩ c.interests) ≠ []
    have htmem : t ∈ strSetList (target.interests ∩ c.interests) := by
      rw [strSetList, Finset.mem_sort, Finset.mem_inter]
      exact ⟨ht, hit ▸ hi⟩
    exact List.ne_nil_of_mem htmem

/-! ## Concrete instances for the witnesses -/

deriving instance DecidableEq for Except

/-- A concrete user for witness computations. -/
def aliceU : User :=
  { user_id := 1, name := "Alice", interests := {"a", "b"}, latitude := 0, longitude := 0 }

/-- A concrete user for witness computations. -/
def bobU : User :=
  { user_id := 2, name := "Bob", interests := {"a", "c"}, latitude := 0, longitude := 0 }

/-- A record under the same identifier as `aliceU` but with different
interests, for the duplicate-identifier scenario. -/
def aliceU2 : User :=
  { user_id := 1, name := "Alyce", interests := {"z"}, latitude := 0, longitude := 0 }

/-- A concrete distance function (both witness users share a location, so
the Haversine distance between them is 0). -/
def zeroDist : ℚ → ℚ → ℚ → ℚ → ℚ := fun _ _ _ _ => 0

/-- The state after registering `aliceU` then `bobU`. -/
def exState : SState := addUsers initState [aliceU, bobU]

/-- The record `get_recommendations` produces for `bobU` when queried for
`aliceU`: exact similarity 1/3 ({"a"} of {"a","b","c"}), rounded to 0.33. -/
def bobRec : Rec :=
  { user_id := 2, name := "Bob", distance := 0, similarity := 33 / 100,
    common_interests := ["a"] }

/-- C1 (counterexample): with `min_similarity = 1/3`, a candidate with exact
Jaccard similarity 1/3 survives the filter, but the returned record's
rounded similarity field 0.33 is strictly below `min_similarity`, refuting
"every result record has similarity ≥ min_similarity". -/
theorem getRecs_record_below_threshold :
    (get_recommendations zeroDist exState 1 10 (1 / 3) 10).1 = .ok [bobRec] ∧
      bobRec.similarity < 1 / 3 := by
  constructor
  · with_unfolding_all decide
  · with_unfolding_all decide

/-- Witness for the amended C1 at a concrete state and call. -/
theorem getRecs_records_filtered_witness :
    bobRec.user_id ≠ 1 ∧ bobRec.distance ≤ 10 + 1 / 200 ∧
      (0 : ℚ) - 1 / 200 ≤ bobRec.similarity ∧
      ∃ target c, dictGet (addUsers initState [aliceU, bobU]).users 1 = some target ∧
        dictGet (addUsers initState [aliceU, bobU]).users bobRec.user_id = some c ∧
        zeroDist target.latitude target.longitude c.latitude c.longitude ≤ 10 ∧
        (0 : ℚ) ≤ calculate_interest_similarity target c ∧
        bobRec.distance =
          round2 (zeroDist target.latitude target.longitude c.latitude c.longitude) ∧
        bobRec.similarity = round2 (calculate_interest_similarity target c) :=
  getRecs_records_filtered [aliceU, bobU] zeroDist 1 10 0 10 [bobRec] bobRec
    (by with_unfolding_all decide) (by with_unfolding_all decide)

/-- Witness for C2 at a concrete state and call. -/
theorem getRecs_sorted_truncated_witness :
    ([bobRec] : List Rec).length ≤ 10 ∧
      ([bobRec] : List Rec).Pairwise (fun a b => b.similarity < a.similarity ∨
        (a.similarity = b.similarity ∧ a.distance ≤ b.distance)) :=
  getRecs_sorted_truncated zeroDist exState 1 10 0 10 [bobRec]
    (by with_unfolding_all decide)

/-- Witness for C4 at a concrete two-user state. -/
theorem addUsers_index_registry_invariant_witness :
    aliceU.user_id ∈ indexGet (addUsers initState [aliceU, bobU]).interest_index
        ("a".toLower) ∧
      ∃ u, dictGet (addUsers initState [aliceU, bobU]).users 2 = some u :=
  ⟨(addUsers_index_registry_invariant [aliceU, bobU] (by with_unfolding_all decide)).1 (1, aliceU)
      (by with_unfolding_all decide) ("a") (by with_unfolding_all decide),
    (addUsers_index_registry_invariant [aliceU, bobU] (by with_unfolding_all decide)).2 ("a".toLower) 2
      (by with_unfolding_all decide)⟩

/-- Witness for C5: querying an unregistered identifier. -/
theorem getRecs_userNotFound_iff_witness :
    get_recommendations zeroDist exState 99 10 0 10 = (.error .userNotFound, exState) :=
  (getRecs_userNotFound_iff zeroDist exState 99 10 0 10).2.mpr (by with_unfolding_all decide)

/-- Witness for C8: re-adding identifier 1 with new interests replaces the
registry record while the stale index entry of the old interest remains. -/
theorem addUser_overwrites_witness :
    dictGet (add_user (addUsers initState [aliceU]) aliceU2).users aliceU2.user_id =
        some aliceU2 ∧
      aliceU.user_id ∈ indexGet
        (add_user (addUsers initState [aliceU]) aliceU2).interest_index ("a".toLower) :=
  ⟨(addUser_overwrites_and_leaves_stale_index (addUsers initState [aliceU]) aliceU2 aliceU
      (by with_unfolding_all decide)).1,
    (addUser_overwrites_and_leaves_stale_index (addUsers initState [aliceU]) aliceU2 aliceU
      (by with_unfolding_all decide)).2.2.2 ("a") (by with_unfolding_all decide) (by with_unfolding_all decide)⟩

/-- Witness for C9 at a concrete two-user state. -/
theorem getRecs_candidates_registered_witness :
    (dictGet (addUsers initState [aliceU, bobU]).users 2).isSome ∧
      ∃ l, (get_recommendations zeroDist (addUsers initState [aliceU, bobU]) 1 10 0 10).1 =
        .ok l :=
  ⟨(getRecs_candidates_registered [aliceU, bobU] (by with_unfolding_all decide) zeroDist 1 aliceU 10 0 10
      (by with_unfolding_all decide)).1 2 (by with_unfolding_all decide),
    (getRecs_candidates_registered [aliceU, bobU] (by with_unfolding_all decide) zeroDist 1 aliceU 10 0 10
      (by with_unfolding_all decide)).2⟩

/-- Witness for C10 at a concrete state and call. -/
theorem getRecs_common_interests_nonempty_witness :
    bobRec.common_interests ≠ [] :=
  getRecs_common_interests_nonempty [aliceU, bobU] (by with_unfolding_all decide) (by with_unfolding_all decide) zeroDist 1 10 0 10
    [bobRec] bobRec (by with_unfolding_all decide) (by with_unfolding_all decide)
